import Mathlib

/-!
Shallow embedding of the numeric extrapolation and spectral-generation core
of the `colour` library:

* `colour/algebra/extrapolation.py` — the `Extrapolator` class: a wrapper
  around a 1-D interpolator that extends its domain using a selectable
  boundary policy (`Linear` or `Constant`), with optional `left`/`right`
  override values.
* `colour/colorimetry/generation.py` — the spectral distribution
  generators: `sd_gaussian_normal`, `sd_gaussian_fwhm`,
  `sd_single_led_Ohno2005`, `sd_multi_leds_Ohno2005`.

Floating point arithmetic is idealised: the extrapolator is embedded over
`ℚ` (all its formulas are rational) and the generators over `ℝ` (their
formulas use `exp`, `log`, `sqrt`).  Vectorized NumPy operations become
`List.map` over the input list; masked assignment into the uninitialized
buffer `np.empty_like(x)` becomes element-wise construction of an
`Option ℚ`, where `none` is an uninitialized slot.
-/

namespace Colour

/-- The interpolator capability consumed by `Extrapolator`: sample
positions `x`, sample values `y`, and a call operator `eval`. -/
structure Interpolator where
  x : List ℚ
  y : List ℚ
  eval : ℚ → ℚ

/-- The `Extrapolator` state after construction: an interpolator, the
stored (validated, lower-cased) method string, and the optional
`left`/`right` override values. -/
structure Extrapolator where
  interpolator : Interpolator
  method : String
  left : Option ℚ
  right : Option ℚ

/-- Modelled from the spec: `colour.algebra.sdiv` under the
`sdiv_mode` context manager used in `Extrapolator._evaluate` (the
library-wide safe-division policy, not under `src/`): `0/0 → 0` and
`finite/0 → 0`, otherwise ordinary division. -/
def sdiv (a b : ℚ) : ℚ :=
  if b = 0 then 0 else a / b

/-- Element-wise translation of `Extrapolator._evaluate`
(`colour/algebra/extrapolation.py`, lines 310-350).  The NumPy masked
assignments are applied in source order to an initially uninitialized
slot (`none`); a later assignment overwrites an earlier one, exactly as
the sequential `y[mask] = ...` statements do. -/
def Extrapolator.elemEval (e : Extrapolator) (xv : ℚ) : Option ℚ :=
  let xi := e.interpolator.x
  let yi := e.interpolator.y
  let xi0 := xi.getD 0 0
  let xiL := xi.getD (xi.length - 1) 0
  let y1 : Option ℚ :=
    if e.method = "linear" then
      let yb :=
        if xv < xi0 then
          some (yi.getD 0 0 + (xv - xi0) *
            sdiv (yi.getD 1 0 - yi.getD 0 0) (xi.getD 1 0 - xi.getD 0 0))
        else none
      if xv > xiL then
        some (yi.getD (yi.length - 1) 0 + (xv - xiL) *
          sdiv (yi.getD (yi.length - 1) 0 - yi.getD (yi.length - 2) 0)
            (xi.getD (xi.length - 1) 0 - xi.getD (xi.length - 2) 0))
      else yb
    else if e.method = "constant" then
      let yb := if xv < xi0 then some (yi.getD 0 0) else none
      if xv > xiL then some (yi.getD (yi.length - 1) 0) else yb
    else none
  let y2 : Option ℚ :=
    match e.left with
    | some l => if xv < xi0 then some l else y1
    | none => y1
  let y3 : Option ℚ :=
    match e.right with
    | some r => if xv > xiL then some r else y2
    | none => y2
  if xi0 ≤ xv ∧ xv ≤ xiL then some (e.interpolator.eval xv) else y3

/-- Vectorized evaluation `Extrapolator.__call__`: element-wise
application of `_evaluate` over the input array. -/
def Extrapolator.evaluate (e : Extrapolator) (x : List ℚ) : List (Option ℚ) :=
  x.map e.elemEval

/-- Character-wise lower-casing of a string (the effect of Python's
`str.lower` on the ASCII method names involved here); written at the
character-list level so the kernel can evaluate it. -/
def strLower (s : String) : String :=
  String.mk (s.data.map Char.toLower)

/-- Modelled from the spec: `colour.utilities.validate_method` (not under
`src/`) — the method string is validated case-insensitively against the
closed set `methods`; the lower-cased value is returned on success, and
an invalid value fails with a configuration error. -/
def validate_method (value : String) (methods : List String) :
    Except String String :=
  if (methods.map (fun m => strLower m)).contains (strLower value) then
    Except.ok (strLower value)
  else
    Except.error "invalid method"

/-- The `method` property setter (`extrapolation.py`, lines 216-227):
the value is checked to be a string (guaranteed by this embedding's
types), validated against `("Linear", "Constant")`, and only then is the
lower-cased result committed to `self._method`; a validation failure
raises before the assignment, leaving the stored method unchanged. -/
def Extrapolator.setMethod (e : Extrapolator) (value : String) :
    Except String Extrapolator :=
  match validate_method value ["Linear", "Constant"] with
  | Except.ok v => Except.ok { e with method := v }
  | Except.error msg => Except.error msg

/-- The `left` property setter (`extrapolation.py`, lines 247-257): when
the value is not `None` it is checked to be numeric (guaranteed by this
embedding's types) and assigned; when the value is `None`, the whole
`if value is not None:` body — including the assignment — is skipped,
so the stored value is kept as it was. -/
def Extrapolator.setLeft (e : Extrapolator) (value : Option ℚ) :
    Extrapolator :=
  match value with
  | some v => { e with left := some v }
  | none => e

/-- The `right` property setter (`extrapolation.py`, lines 277-287):
same structure as the `left` setter. -/
def Extrapolator.setRight (e : Extrapolator) (value : Option ℚ) :
    Extrapolator :=
  match value with
  | some v => { e with right := some v }
  | none => e

/-- `Extrapolator.__init__` (`extrapolation.py`, lines 137-160): the
state starts from the defaults (method `"Linear"`, no overrides) and the
property setters run in source order (interpolator, method, right,
left); a failing setter aborts construction with its error. -/
def Extrapolator.construct (interp : Interpolator) (method : String)
    (l r : Option ℚ) : Except String Extrapolator :=
  match Extrapolator.setMethod ⟨interp, "Linear", none, none⟩ method with
  | Except.ok e1 => Except.ok ((e1.setRight r).setLeft l)
  | Except.error msg => Except.error msg

/-- Per-wavelength value of `sd_gaussian_normal`
(`colour/colorimetry/generation.py`, line 421):
`exp(-(λ-mu)² / (2·sigma²))`. -/
noncomputable def sd_gaussian_normal_value (mu sigma w : ℝ) : ℝ :=
  Real.exp (-((w - mu) ^ 2) / (2 * sigma ^ 2))

/-- `sd_gaussian_normal` values over the shape's wavelength grid `ws`
(the grid itself is produced by the external `SpectralShape`). -/
noncomputable def sd_gaussian_normal_values (mu sigma : ℝ) (ws : List ℝ) :
    List ℝ :=
  ws.map (sd_gaussian_normal_value mu sigma)

/-- `sd_gaussian_fwhm` values over the shape's wavelength grid `ws`
(`generation.py`, lines 474-478): `mu, sigma = peak_wavelength,
fwhm / (2·sqrt(2·log 2))`, then the same per-wavelength formula as the
normal form. -/
noncomputable def sd_gaussian_fwhm_values (peak_wavelength fwhm : ℝ)
    (ws : List ℝ) : List ℝ :=
  ws.map (fun w => Real.exp (-((w - peak_wavelength) ^ 2) /
    (2 * (fwhm / (2 * Real.sqrt (2 * Real.log 2))) ^ 2)))

/-- Per-wavelength value of `sd_single_led_Ohno2005` (`generation.py`,
lines 614-617): `g = exp(-((λ-peak)/half_width)²)`, blended as
`(g + 2·g⁵)/3`. -/
noncomputable def sd_single_led_Ohno2005_value
    (peak_wavelength half_spectral_width w : ℝ) : ℝ :=
  let g := Real.exp (-(((w - peak_wavelength) / half_spectral_width) ^ 2))
  (g + 2 * g ^ 5) / 3

/-- Modelled from the spec: NumPy `np.resize` as used for broadcasting
in `sd_multi_leds_Ohno2005` — the array is cyclically tiled (or
truncated) to the requested length. -/
def np_resize (a : List ℝ) (n : ℕ) : List ℝ :=
  (List.range n).map (fun i => a.getD (i % a.length) 0)

/-- `sd_multi_leds_Ohno2005` values over the shape's wavelength grid
`ws` (`generation.py`, lines 748-769): `half_spectral_widths` and
`peak_power_ratios` are resized to the peak count (`peak_power_ratios`
defaults to all ones when omitted), then, starting from an all-zero
signal, each single-LED signal scaled by its power ratio is accumulated.
The per-wavelength addition of spectral distributions is modelled from
the spec (the `SpectralDistribution` arithmetic is not under `src/`). -/
noncomputable def sd_multi_leds_Ohno2005_values (peak_wavelengths
    half_spectral_widths : List ℝ) (peak_power_ratios : Option (List ℝ))
    (ws : List ℝ) : List ℝ :=
  let hws := np_resize half_spectral_widths peak_wavelengths.length
  let prs :=
    match peak_power_ratios with
    | none => List.replicate peak_wavelengths.length 1
    | some p => np_resize p peak_wavelengths.length
  ws.map (fun w =>
    ((peak_wavelengths.zip hws).zip prs).foldl
      (fun acc q => acc + sd_single_led_Ohno2005_value q.1.1 q.1.2 w * q.2) 0)

/-- In a strictly sorted list, entries at increasing indices increase. -/
lemma sorted_getD_lt (xi : List ℚ) (hsort : List.Sorted (· < ·) xi)
    (i j : ℕ) (hij : i < j) (hj : j < xi.length) :
    xi.getD i 0 < xi.getD j 0 := by
  have hi : i < xi.length := by omega
  rw [List.getD_eq_getElem xi 0 hi, List.getD_eq_getElem xi 0 hj]
  exact List.pairwise_iff_get.mp hsort ⟨i, hi⟩ ⟨j, hj⟩ hij

/-- First element of a strictly sorted list of length ≥ 2 is strictly
below the last element. -/
lemma getD_zero_lt_getD_last (xi : List ℚ) (hlen : 2 ≤ xi.length)
    (hsort : List.Sorted (· < ·) xi) :
    xi.getD 0 0 < xi.getD (xi.length - 1) 0 :=
  sorted_getD_lt xi hsort 0 (xi.length - 1) (by omega) (by omega)

/-- `sdiv` agrees with ordinary division on nonzero denominators. -/
lemma sdiv_eq_div (a b : ℚ) (h : b ≠ 0) : sdiv a b = a / b := by
  simp [sdiv, h]

/-- Unfolding of `_evaluate` on a below-range element (`x < xi[0]`,
assuming `xi[0] ≤ xi[-1]`): the `left` override wins if set, otherwise
the method-computed value stands. -/
lemma Extrapolator.elemEval_below (e : Extrapolator) (xv : ℚ)
    (hxv : xv < e.interpolator.x.getD 0 0)
    (h0L : e.interpolator.x.getD 0 0 ≤
      e.interpolator.x.getD (e.interpolator.x.length - 1) 0) :
    e.elemEval xv =
      match e.left with
      | some l => some l
      | none =>
        if e.method = "linear" then
          some (e.interpolator.y.getD 0 0 +
            (xv - e.interpolator.x.getD 0 0) *
            sdiv (e.interpolator.y.getD 1 0 - e.interpolator.y.getD 0 0)
              (e.interpolator.x.getD 1 0 - e.interpolator.x.getD 0 0))
        else if e.method = "constant" then
          some (e.interpolator.y.getD 0 0)
        else none := by
  have hnotin : ¬(e.interpolator.x.getD 0 0 ≤ xv ∧
      xv ≤ e.interpolator.x.getD (e.interpolator.x.length - 1) 0) :=
    fun h => absurd h.1 (not_le.mpr hxv)
  have hnotab :
      ¬(xv > e.interpolator.x.getD (e.interpolator.x.length - 1) 0) := by
    push_neg; linarith
  unfold Extrapolator.elemEval
  simp only [if_neg hnotin, if_neg hnotab, if_pos hxv]
  cases e.right <;> cases e.left <;> rfl

/-- Unfolding of `_evaluate` on an above-range element (`x > xi[-1]`,
assuming `xi[0] ≤ xi[-1]`): the `right` override wins if set, otherwise
the method-computed value stands. -/
lemma Extrapolator.elemEval_above (e : Extrapolator) (xv : ℚ)
    (hxv : e.interpolator.x.getD (e.interpolator.x.length - 1) 0 < xv)
    (h0L : e.interpolator.x.getD 0 0 ≤
      e.interpolator.x.getD (e.interpolator.x.length - 1) 0) :
    e.elemEval xv =
      match e.right with
      | some r => some r
      | none =>
        if e.method = "linear" then
          some (e.interpolator.y.getD (e.interpolator.y.length - 1) 0 +
            (xv - e.interpolator.x.getD (e.interpolator.x.length - 1) 0) *
            sdiv (e.interpolator.y.getD (e.interpolator.y.length - 1) 0 -
                e.interpolator.y.getD (e.interpolator.y.length - 2) 0)
              (e.interpolator.x.getD (e.interpolator.x.length - 1) 0 -
                e.interpolator.x.getD (e.interpolator.x.length - 2) 0))
        else if e.method = "constant" then
          some (e.interpolator.y.getD (e.interpolator.y.length - 1) 0)
        else none := by
  have hnotin : ¬(e.interpolator.x.getD 0 0 ≤ xv ∧
      xv ≤ e.interpolator.x.getD (e.interpolator.x.length - 1) 0) :=
    fun h => absurd h.2 (not_le.mpr hxv)
  have hnotbe : ¬(xv < e.interpolator.x.getD 0 0) := by
    push_neg; linarith
  unfold Extrapolator.elemEval
  simp only [if_neg hnotin, if_neg hnotbe, if_pos hxv]
  cases e.right <;> cases e.left <;> rfl

end Colour

/-- **C1** (boundary continuity): for every `Extrapolator` wrapping an
interpolator whose boundary array `xi` is strictly increasing with
length ≥ 2, and for every method string and `left`/`right` overrides,
every in-range input (`xi[0] ≤ x ≤ xi[-1]`) — in particular `xi[0]`
and `xi[-1]` themselves — evaluates to exactly the interpolator's own
output: the in-range step runs last and overwrites any method- or
override-computed value at those positions. -/
theorem extrapolator_boundary_continuity (e : Colour.Extrapolator)
    (hlen : 2 ≤ e.interpolator.x.length)
    (hsort : List.Sorted (· < ·) e.interpolator.x) :
    (∀ xv : ℚ, e.interpolator.x.getD 0 0 ≤ xv →
      xv ≤ e.interpolator.x.getD (e.interpolator.x.length - 1) 0 →
      e.elemEval xv = some (e.interpolator.eval xv)) ∧
    e.elemEval (e.interpolator.x.getD 0 0) =
      some (e.interpolator.eval (e.interpolator.x.getD 0 0)) ∧
    e.elemEval (e.interpolator.x.getD (e.interpolator.x.length - 1) 0) =
      some (e.interpolator.eval
        (e.interpolator.x.getD (e.interpolator.x.length - 1) 0)) := by
  have hlt := Colour.getD_zero_lt_getD_last e.interpolator.x hlen hsort
  have hmain : ∀ xv : ℚ, e.interpolator.x.getD 0 0 ≤ xv →
      xv ≤ e.interpolator.x.getD (e.interpolator.x.length - 1) 0 →
      e.elemEval xv = some (e.interpolator.eval xv) := by
    intro xv h1 h2
    unfold Colour.Extrapolator.elemEval
    simp only
    rw [if_pos ⟨h1, h2⟩]
  exact ⟨hmain, hmain _ le_rfl hlt.le, hmain _ hlt.le le_rfl⟩

/-- Witness for C1 at a concrete extrapolator. -/
theorem extrapolator_boundary_continuity_witness :
    (2 ≤ (([3, 4, 5] : List ℚ)).length ∧
      List.Sorted (· < ·) ([3, 4, 5] : List ℚ)) ∧
    (Colour.Extrapolator.mk (Colour.Interpolator.mk [3, 4, 5] [1, 2, 3]
        (fun t => t - 2)) "linear" none none).elemEval 3 =
      some ((fun t : ℚ => t - 2) 3) := by
  refine ⟨⟨by decide, by decide⟩, ?_⟩
  have h := extrapolator_boundary_continuity
    (Colour.Extrapolator.mk (Colour.Interpolator.mk [3, 4, 5] [1, 2, 3]
      (fun t => t - 2)) "linear" none none) (by decide) (by decide)
  exact h.2.1

/-- **C2** (linear slope law): for every `Extrapolator` with method
`"linear"` and no `left`/`right` override, wrapping an interpolator with
strictly increasing boundary array `xi` of length ≥ 2, every input below
`xi[0]` evaluates to `yi[0] + (x - xi[0]) * (yi[1]-yi[0])/(xi[1]-xi[0])`
and every input above `xi[-1]` evaluates to
`yi[-1] + (x - xi[-1]) * (yi[-1]-yi[-2])/(xi[-1]-xi[-2])`. -/
theorem extrapolator_linear_slope_law (e : Colour.Extrapolator)
    (hm : e.method = "linear") (hl : e.left = none) (hr : e.right = none)
    (hlen : 2 ≤ e.interpolator.x.length)
    (hsort : List.Sorted (· < ·) e.interpolator.x) :
    (∀ xv : ℚ, xv < e.interpolator.x.getD 0 0 →
      e.elemEval xv = some (e.interpolator.y.getD 0 0 +
        (xv - e.interpolator.x.getD 0 0) *
        ((e.interpolator.y.getD 1 0 - e.interpolator.y.getD 0 0) /
          (e.interpolator.x.getD 1 0 - e.interpolator.x.getD 0 0)))) ∧
    (∀ xv : ℚ, e.interpolator.x.getD (e.interpolator.x.length - 1) 0 < xv →
      e.elemEval xv = some
        (e.interpolator.y.getD (e.interpolator.y.length - 1) 0 +
          (xv - e.interpolator.x.getD (e.interpolator.x.length - 1) 0) *
          ((e.interpolator.y.getD (e.interpolator.y.length - 1) 0 -
              e.interpolator.y.getD (e.interpolator.y.length - 2) 0) /
            (e.interpolator.x.getD (e.interpolator.x.length - 1) 0 -
              e.interpolator.x.getD (e.interpolator.x.length - 2) 0)))) := by
  have h01 : e.interpolator.x.getD 0 0 < e.interpolator.x.getD 1 0 :=
    Colour.sorted_getD_lt _ hsort 0 1 (by omega) (by omega)
  have hL2 : e.interpolator.x.getD (e.interpolator.x.length - 2) 0 <
      e.interpolator.x.getD (e.interpolator.x.length - 1) 0 :=
    Colour.sorted_getD_lt _ hsort _ _ (by omega) (by omega)
  have h0L := Colour.getD_zero_lt_getD_last e.interpolator.x hlen hsort
  constructor
  · intro xv hxv
    unfold Colour.Extrapolator.elemEval
    rw [hm, hl, hr]
    simp only [String.reduceEq, reduceIte]
    split_ifs with h1 h2
    · exact absurd h1.1 (not_le.mpr hxv)
    · exact absurd h2 (by push_neg; linarith)
    · rw [Colour.sdiv_eq_div _ _ (sub_ne_zero.mpr h01.ne')]
  · intro xv hxv
    unfold Colour.Extrapolator.elemEval
    rw [hm, hl, hr]
    simp only [String.reduceEq, reduceIte]
    split_ifs with h1
    · exact absurd h1.2 (not_le.mpr hxv)
    · rw [Colour.sdiv_eq_div _ _ (sub_ne_zero.mpr hL2.ne')]

/-- Witness for C2: the spec's concrete instance `xi = [3, 4, 5]`,
`yi = [1, 2, 3]`, evaluated at `1`, gives `-1`. -/
theorem extrapolator_linear_slope_law_witness :
    (Colour.Extrapolator.mk (Colour.Interpolator.mk [3, 4, 5] [1, 2, 3]
      (fun t => t - 2)) "linear" none none).elemEval 1 = some (-1) := by
  have h := extrapolator_linear_slope_law
    (Colour.Extrapolator.mk (Colour.Interpolator.mk [3, 4, 5] [1, 2, 3]
      (fun t => t - 2)) "linear" none none)
    rfl rfl rfl (by decide) (by decide)
  refine (h.1 1 (by decide)).trans ?_
  norm_num [List.getD_cons_zero, List.getD_cons_succ]


/-- **C3** (constant law): for every `Extrapolator` with method
`"constant"` and no `left`/`right` override, wrapping an interpolator
with strictly increasing boundary array `xi` of length ≥ 2, every input
below `xi[0]` evaluates to `yi[0]` and every input above `xi[-1]`
evaluates to `yi[-1]`. -/
theorem extrapolator_constant_law (e : Colour.Extrapolator)
    (hm : e.method = "constant") (hl : e.left = none) (hr : e.right = none)
    (hlen : 2 ≤ e.interpolator.x.length)
    (hsort : List.Sorted (· < ·) e.interpolator.x) :
    (∀ xv : ℚ, xv < e.interpolator.x.getD 0 0 →
      e.elemEval xv = some (e.interpolator.y.getD 0 0)) ∧
    (∀ xv : ℚ, e.interpolator.x.getD (e.interpolator.x.length - 1) 0 < xv →
      e.elemEval xv = some
        (e.interpolator.y.getD (e.interpolator.y.length - 1) 0)) := by
  have h0L := Colour.getD_zero_lt_getD_last e.interpolator.x hlen hsort
  constructor
  · intro xv hxv
    rw [Colour.Extrapolator.elemEval_below e xv hxv h0L.le, hl, hm]
    rfl
  · intro xv hxv
    rw [Colour.Extrapolator.elemEval_above e xv hxv h0L.le, hr, hm]
    rfl

/-- Witness for C3: the spec's concrete instance — method `"constant"`,
`xi = [3, 4, 5]`, `yi = [1, 2, 3]`, input `[0.1, 0.2, 8, 9]` yields
`[1, 1, 3, 3]`. -/
theorem extrapolator_constant_law_witness :
    (Colour.Extrapolator.mk (Colour.Interpolator.mk [3, 4, 5] [1, 2, 3]
      (fun t => t - 2)) "constant" none none).evaluate [1/10, 2/10, 8, 9] =
      [some 1, some 1, some 3, some 3] := by
  have h := extrapolator_constant_law
    (Colour.Extrapolator.mk (Colour.Interpolator.mk [3, 4, 5] [1, 2, 3]
      (fun t => t - 2)) "constant" none none)
    rfl rfl rfl (by decide) (by decide)
  show [_, _, _, _] = _
  rw [h.1 (1/10) (by norm_num [List.getD_cons_zero]),
    h.1 (2/10) (by norm_num [List.getD_cons_zero]),
    h.2 8 (by norm_num [List.getD_cons_zero, List.getD_cons_succ]),
    h.2 9 (by norm_num [List.getD_cons_zero, List.getD_cons_succ])]
  norm_num [List.getD_cons_zero, List.getD_cons_succ]

/-- **C4** (override precedence): for every `Extrapolator` wrapping an
interpolator with strictly increasing boundary array `xi` of length ≥ 2:
if `left` is set, every input below `xi[0]` evaluates to the `left`
value regardless of method; if `right` is set, every input above
`xi[-1]` evaluates to the `right` value; a side whose override is not
set keeps the method-computed value even when the other override is
set — `yi[0]`/`yi[-1]` for method `"constant"`, the boundary slope
formula for method `"linear"`. -/
theorem extrapolator_override_precedence (e : Colour.Extrapolator)
    (hlen : 2 ≤ e.interpolator.x.length)
    (hsort : List.Sorted (· < ·) e.interpolator.x) :
    (∀ l : ℚ, e.left = some l → ∀ xv : ℚ, xv < e.interpolator.x.getD 0 0 →
      e.elemEval xv = some l) ∧
    (∀ r : ℚ, e.right = some r →
      ∀ xv : ℚ, e.interpolator.x.getD (e.interpolator.x.length - 1) 0 < xv →
      e.elemEval xv = some r) ∧
    (e.right = none →
      ∀ xv : ℚ, e.interpolator.x.getD (e.interpolator.x.length - 1) 0 < xv →
      (e.method = "constant" →
        e.elemEval xv = some
          (e.interpolator.y.getD (e.interpolator.y.length - 1) 0)) ∧
      (e.method = "linear" →
        e.elemEval xv = some
          (e.interpolator.y.getD (e.interpolator.y.length - 1) 0 +
            (xv - e.interpolator.x.getD (e.interpolator.x.length - 1) 0) *
            ((e.interpolator.y.getD (e.interpolator.y.length - 1) 0 -
                e.interpolator.y.getD (e.interpolator.y.length - 2) 0) /
              (e.interpolator.x.getD (e.interpolator.x.length - 1) 0 -
                e.interpolator.x.getD (e.interpolator.x.length - 2) 0))))) ∧
    (e.left = none →
      ∀ xv : ℚ, xv < e.interpolator.x.getD 0 0 →
      (e.method = "constant" →
        e.elemEval xv = some (e.interpolator.y.getD 0 0)) ∧
      (e.method = "linear" →
        e.elemEval xv = some (e.interpolator.y.getD 0 0 +
          (xv - e.interpolator.x.getD 0 0) *
          ((e.interpolator.y.getD 1 0 - e.interpolator.y.getD 0 0) /
            (e.interpolator.x.getD 1 0 - e.interpolator.x.getD 0 0))))) := by
  have h0L := Colour.getD_zero_lt_getD_last e.interpolator.x hlen hsort
  have h01 : e.interpolator.x.getD 0 0 < e.interpolator.x.getD 1 0 :=
    Colour.sorted_getD_lt _ hsort 0 1 (by omega) (by omega)
  have hL2 : e.interpolator.x.getD (e.interpolator.x.length - 2) 0 <
      e.interpolator.x.getD (e.interpolator.x.length - 1) 0 :=
    Colour.sorted_getD_lt _ hsort _ _ (by omega) (by omega)
  refine ⟨?_, ?_, ?_, ?_⟩
  · intro l hl xv hxv
    rw [Colour.Extrapolator.elemEval_below e xv hxv h0L.le, hl]
  · intro r hr xv hxv
    rw [Colour.Extrapolator.elemEval_above e xv hxv h0L.le, hr]
  · intro hr xv hxv
    constructor
    · intro hm
      rw [Colour.Extrapolator.elemEval_above e xv hxv h0L.le, hr, hm]
      rfl
    · intro hm
      rw [Colour.Extrapolator.elemEval_above e xv hxv h0L.le, hr, hm,
        Colour.sdiv_eq_div _ _ (sub_ne_zero.mpr hL2.ne')]
      rfl
  · intro hl xv hxv
    constructor
    · intro hm
      rw [Colour.Extrapolator.elemEval_below e xv hxv h0L.le, hl, hm]
      rfl
    · intro hm
      rw [Colour.Extrapolator.elemEval_below e xv hxv h0L.le, hl, hm,
        Colour.sdiv_eq_div _ _ (sub_ne_zero.mpr h01.ne')]
      rfl

/-- Witness for C4: method `"constant"`, `left = 0`, `xi = [3, 4, 5]`,
`yi = [1, 2, 3]`: evaluating `[0.1, 0.2, 8, 9]` yields `[0, 0, 3, 3]`;
and with method `"linear"`, `left = 0`, `right` unset, the above-range
input `9` keeps the method-computed slope value `7`. -/
theorem extrapolator_override_precedence_witness :
    (Colour.Extrapolator.mk (Colour.Interpolator.mk [3, 4, 5] [1, 2, 3]
      (fun t => t - 2)) "constant" (some 0) none).evaluate
      [1/10, 2/10, 8, 9] = [some 0, some 0, some 3, some 3] ∧
    (Colour.Extrapolator.mk (Colour.Interpolator.mk [3, 4, 5] [1, 2, 3]
      (fun t => t - 2)) "linear" (some 0) none).elemEval 9 = some 7 := by
  have h := extrapolator_override_precedence
    (Colour.Extrapolator.mk (Colour.Interpolator.mk [3, 4, 5] [1, 2, 3]
      (fun t => t - 2)) "constant" (some 0) none)
    (by decide) (by decide)
  have hlin := extrapolator_override_precedence
    (Colour.Extrapolator.mk (Colour.Interpolator.mk [3, 4, 5] [1, 2, 3]
      (fun t => t - 2)) "linear" (some 0) none)
    (by decide) (by decide)
  constructor
  · show [_, _, _, _] = _
    rw [h.1 0 rfl (1/10) (by norm_num [List.getD_cons_zero]),
      h.1 0 rfl (2/10) (by norm_num [List.getD_cons_zero]),
      (h.2.2.1 rfl 8
        (by norm_num [List.getD_cons_zero, List.getD_cons_succ])).1 rfl,
      (h.2.2.1 rfl 9
        (by norm_num [List.getD_cons_zero, List.getD_cons_succ])).1 rfl]
    norm_num [List.getD_cons_zero, List.getD_cons_succ]
  · refine ((hlin.2.2.1 rfl 9
      (by norm_num [List.getD_cons_zero, List.getD_cons_succ])).2 rfl).trans ?_
    norm_num [List.getD_cons_zero, List.getD_cons_succ]

/-- **C5** (safe division under degenerate boundaries): for every
`Extrapolator` with method `"linear"` and no overrides, wrapping an
interpolator whose first two (or last two) boundary samples coincide
(the slope denominator is zero), evaluation is still total: by the
safe-division convention the slope term is `0`, so below elements
evaluate to `yi[0]` (and above elements to `yi[-1]`), with no `NaN`
propagation. -/
theorem extrapolator_safe_division (e : Colour.Extrapolator)
    (hm : e.method = "linear") (hl : e.left = none) (hr : e.right = none)
    (h0L : e.interpolator.x.getD 0 0 ≤
      e.interpolator.x.getD (e.interpolator.x.length - 1) 0) :
    (e.interpolator.x.getD 1 0 = e.interpolator.x.getD 0 0 →
      ∀ xv : ℚ, xv < e.interpolator.x.getD 0 0 →
      e.elemEval xv = some (e.interpolator.y.getD 0 0)) ∧
    (e.interpolator.x.getD (e.interpolator.x.length - 1) 0 =
        e.interpolator.x.getD (e.interpolator.x.length - 2) 0 →
      ∀ xv : ℚ, e.interpolator.x.getD (e.interpolator.x.length - 1) 0 < xv →
      e.elemEval xv = some
        (e.interpolator.y.getD (e.interpolator.y.length - 1) 0)) := by
  constructor
  · intro hdeg xv hxv
    rw [Colour.Extrapolator.elemEval_below e xv hxv h0L, hl, hm, hdeg]
    simp [Colour.sdiv]
  · intro hdeg xv hxv
    rw [Colour.Extrapolator.elemEval_above e xv hxv h0L, hr, hm, hdeg]
    simp [Colour.sdiv]

/-- Witness for C5: `xi = [3, 3, 5]` (first two boundary samples
coincide), `yi = [1, 2, 3]`: evaluating at `1` yields `yi[0] = 1`. -/
theorem extrapolator_safe_division_witness :
    (Colour.Extrapolator.mk (Colour.Interpolator.mk [3, 3, 5] [1, 2, 3]
      (fun t => t)) "linear" none none).elemEval 1 = some 1 := by
  have h := extrapolator_safe_division
    (Colour.Extrapolator.mk (Colour.Interpolator.mk [3, 3, 5] [1, 2, 3]
      (fun t => t)) "linear" none none)
    rfl rfl rfl (by decide)
  refine (h.1 (by decide) 1 (by decide)).trans ?_
  norm_num [List.getD_cons_zero]

/-- **C6** (invalid method rejection with atomicity): for every string
`s` not case-insensitively equal to `"Linear"` or `"Constant"`, both
constructing an `Extrapolator` with `method = s` and assigning `s` to
the `method` property fail with the configuration error; the failure is
raised before the assignment statement, so no new state is ever
produced (`setMethod` never returns `ok`), and the caller's stored
method is unchanged. -/
theorem extrapolator_invalid_method_rejection (s : String)
    (h1 : Colour.strLower s ≠ "linear")
    (h2 : Colour.strLower s ≠ "constant") :
    (∀ e : Colour.Extrapolator,
      e.setMethod s = Except.error "invalid method" ∧
      ∀ e2 : Colour.Extrapolator, e.setMethod s ≠ Except.ok e2) ∧
    (∀ (interp : Colour.Interpolator) (l r : Option ℚ),
      Colour.Extrapolator.construct interp s l r =
        Except.error "invalid method") := by
  have hm : (["Linear", "Constant"] : List String).map
      (fun m => Colour.strLower m) = ["linear", "constant"] := by decide
  have hc : (["linear", "constant"] : List String).contains
      (Colour.strLower s) = false := by
    simp [List.contains]
    exact ⟨h1, h2⟩
  have hv : Colour.validate_method s ["Linear", "Constant"] =
      Except.error "invalid method" := by
    unfold Colour.validate_method
    rw [hm, hc]
    simp
  have hset : ∀ e : Colour.Extrapolator,
      e.setMethod s = Except.error "invalid method" := by
    intro e
    unfold Colour.Extrapolator.setMethod
    rw [hv]
  refine ⟨fun e => ⟨hset e, fun e2 h => ?_⟩, fun interp l r => ?_⟩
  · rw [hset e] at h
    exact Except.noConfusion h
  · unfold Colour.Extrapolator.construct
    rw [hset]

/-- Witness for C6 at the spec's concrete invalid method `"Cubic"`. -/
theorem extrapolator_invalid_method_rejection_witness :
    (Colour.strLower "Cubic" ≠ "linear" ∧
      Colour.strLower "Cubic" ≠ "constant") ∧
    (Colour.Extrapolator.mk (Colour.Interpolator.mk [3, 4, 5] [1, 2, 3]
        (fun t => t)) "linear" none none).setMethod "Cubic" =
      Except.error "invalid method" := by
  refine ⟨⟨by decide, by decide⟩, ?_⟩
  exact ((extrapolator_invalid_method_rejection "Cubic" (by decide)
    (by decide)).1 _).1

/-- **C7**: the claim — assigning `None` to `left`/`right` clears the
override — FAILS on this code.  In the setters
(`extrapolation.py`, lines 247-257 and 277-287) the assignment
`self._left = value` sits inside the `if value is not None:` block, so
assigning `None` is a no-op and a previously set override stays in
effect.  At the failing input (method `"constant"`, `left = 0`,
`xi = [3, 4, 5]`, `yi = [1, 2, 3]`; assign `left = None`; evaluate at
`1`): the code still returns the stale override `0`, while the claim
requires the method-computed boundary value `yi[0] = 1`. -/
theorem extrapolator_left_none_keeps_override :
    ((Colour.Extrapolator.mk (Colour.Interpolator.mk [3, 4, 5] [1, 2, 3]
        (fun t => t)) "constant" (some 0) none).setLeft none).left =
      some 0 ∧
    ((Colour.Extrapolator.mk (Colour.Interpolator.mk [3, 4, 5] [1, 2, 3]
        (fun t => t)) "constant" (some 0) none).setLeft none).elemEval 1 =
      some 0 ∧
    ((Colour.Extrapolator.mk (Colour.Interpolator.mk [3, 4, 5] [1, 2, 3]
        (fun t => t)) "constant" (some 0) none).setLeft none).elemEval 1 ≠
      some (([1, 2, 3] : List ℚ).getD 0 0) ∧
    ((Colour.Extrapolator.mk (Colour.Interpolator.mk [3, 4, 5] [1, 2, 3]
        (fun t => t)) "constant" none (some 5)).setRight none).right =
      some 5 := by
  refine ⟨rfl, by decide, by decide, rfl⟩

/-- **C10** (exhaustive classification): for every `Extrapolator` with a
validated method and `xi[0] ≤ xi[-1]`, every element of every input
array (no `NaN` exists in this exact-arithmetic embedding) is assigned
by exactly one of the three branches — below (`x < xi[0]`), above
(`x > xi[-1]`), or in-range (`xi[0] ≤ x ≤ xi[-1]`) — so no output slot
is left holding the uninitialized contents of the empty buffer. -/
theorem extrapolator_exhaustive_classification (e : Colour.Extrapolator)
    (hmethod : e.method = "linear" ∨ e.method = "constant")
    (h0L : e.interpolator.x.getD 0 0 ≤
      e.interpolator.x.getD (e.interpolator.x.length - 1) 0) :
    (∀ xs : List ℚ, ∀ o ∈ e.evaluate xs, o.isSome = true) ∧
    (∀ xv : ℚ,
      (xv < e.interpolator.x.getD 0 0 ∧
        ¬(e.interpolator.x.getD (e.interpolator.x.length - 1) 0 < xv) ∧
        ¬(e.interpolator.x.getD 0 0 ≤ xv ∧
          xv ≤ e.interpolator.x.getD (e.interpolator.x.length - 1) 0)) ∨
      (e.interpolator.x.getD (e.interpolator.x.length - 1) 0 < xv ∧
        ¬(xv < e.interpolator.x.getD 0 0) ∧
        ¬(e.interpolator.x.getD 0 0 ≤ xv ∧
          xv ≤ e.interpolator.x.getD (e.interpolator.x.length - 1) 0)) ∨
      ((e.interpolator.x.getD 0 0 ≤ xv ∧
          xv ≤ e.interpolator.x.getD (e.interpolator.x.length - 1) 0) ∧
        ¬(xv < e.interpolator.x.getD 0 0) ∧
        ¬(e.interpolator.x.getD (e.interpolator.x.length - 1) 0 < xv))) := by
  have hsome : ∀ xv : ℚ, (e.elemEval xv).isSome = true := by
    intro xv
    rcases lt_or_le xv (e.interpolator.x.getD 0 0) with hb | hge
    · rw [Colour.Extrapolator.elemEval_below e xv hb h0L]
      cases e.left with
      | some l => rfl
      | none => rcases hmethod with hm | hm <;> rw [hm] <;> rfl
    · rcases le_or_lt xv
        (e.interpolator.x.getD (e.interpolator.x.length - 1) 0) with hle | ha
      · unfold Colour.Extrapolator.elemEval
        simp only
        rw [if_pos ⟨hge, hle⟩]
        rfl
      · rw [Colour.Extrapolator.elemEval_above e xv ha h0L]
        cases e.right with
        | some r => rfl
        | none => rcases hmethod with hm | hm <;> rw [hm] <;> rfl
  constructor
  · intro xs o ho
    obtain ⟨xv, _, rfl⟩ := List.mem_map.mp ho
    exact hsome xv
  · intro xv
    rcases lt_or_le xv (e.interpolator.x.getD 0 0) with hb | hge
    · exact Or.inl ⟨hb, by push_neg; linarith,
        fun h => absurd h.1 (not_le.mpr hb)⟩
    · rcases le_or_lt xv
        (e.interpolator.x.getD (e.interpolator.x.length - 1) 0) with hle | ha
      · exact Or.inr (Or.inr ⟨⟨hge, hle⟩, not_lt.mpr hge, not_lt.mpr hle⟩)
      · exact Or.inr (Or.inl ⟨ha, not_lt.mpr (h0L.trans ha.le),
          fun h => absurd h.2 (not_le.mpr ha)⟩)

/-- Witness for C10: on a concrete extrapolator, every output slot for
the input `[0, 4, 9]` (one element per branch) is initialized. -/
theorem extrapolator_exhaustive_classification_witness :
    ((Colour.Extrapolator.mk (Colour.Interpolator.mk [3, 4, 5] [1, 2, 3]
      (fun t => t)) "linear" none none).evaluate [0, 4, 9]).all
      (fun o => o.isSome) = true := by
  have h := extrapolator_exhaustive_classification
    (Colour.Extrapolator.mk (Colour.Interpolator.mk [3, 4, 5] [1, 2, 3]
      (fun t => t)) "linear" none none) (Or.inl rfl) (by decide)
  exact List.all_eq_true.mpr (fun o ho => h.1 [0, 4, 9] o ho)

/-- **C8** (FWHM-to-sigma equivalence): for every peak wavelength,
width, and wavelength grid, `sd_gaussian_fwhm` computes exactly the
values of `sd_gaussian_normal` at `sigma = fwhm / (2·sqrt(2·log 2))`;
in particular `sd_gaussian_fwhm(555, 25)` at wavelength `530` is
exactly `0.0625`. -/
theorem sd_gaussian_fwhm_equivalence :
    (∀ (p f : ℝ) (ws : List ℝ),
      Colour.sd_gaussian_fwhm_values p f ws =
        Colour.sd_gaussian_normal_values p
          (f / (2 * Real.sqrt (2 * Real.log 2))) ws) ∧
    Colour.sd_gaussian_fwhm_values 555 25 [530] = [0.0625] := by
  constructor
  · intro p f ws
    rfl
  · unfold Colour.sd_gaussian_fwhm_values
    simp only [List.map_cons, List.map_nil]
    congr 1
    have hL : (0:ℝ) < Real.log 2 := Real.log_pos (by norm_num)
    have hs2 : Real.sqrt (2 * Real.log 2) ^ 2 = 2 * Real.log 2 :=
      Real.sq_sqrt (by positivity)
    have harg : -(((530:ℝ) - 555) ^ 2) /
        (2 * ((25:ℝ) / (2 * Real.sqrt (2 * Real.log 2))) ^ 2) =
        -(4 * Real.log 2) := by
      rw [div_pow, mul_pow, hs2]
      rw [show ((530:ℝ) - 555) ^ 2 = 625 by norm_num]
      rw [show ((25:ℝ)) ^ 2 = 625 by norm_num]
      rw [show ((2:ℝ)) ^ 2 = 4 by norm_num]
      field_simp
      ring
    rw [harg, Real.exp_neg]
    rw [show (4:ℝ) * Real.log 2 = ((4:ℕ):ℝ) * Real.log 2 by norm_num]
    rw [Real.exp_nat_mul, Real.exp_log (by norm_num : (0:ℝ) < 2)]
    norm_num

/-- `np_resize` produces a list of the requested length. -/
lemma Colour.np_resize_length (a : List ℝ) (n : ℕ) :
    (Colour.np_resize a n).length = n := by
  simp [Colour.np_resize]

/-- Folding the accumulation loop of `sd_multi_leds_Ohno2005` from an
arbitrary start equals the start plus the sum of the per-LED
contributions. -/
lemma Colour.foldl_single_led_sum (w : ℝ) (l : List ((ℝ × ℝ) × ℝ)) :
    ∀ a : ℝ, l.foldl (fun acc q => acc +
        Colour.sd_single_led_Ohno2005_value q.1.1 q.1.2 w * q.2) a =
      a + (l.map (fun q =>
        Colour.sd_single_led_Ohno2005_value q.1.1 q.1.2 w * q.2)).sum := by
  induction l with
  | nil => intro a; simp
  | cons q l ih =>
    intro a
    simp only [List.foldl_cons, List.map_cons, List.sum_cons, ih, add_assoc]

/-- The summed per-LED contributions over the zipped parameter triples
equal an index-wise sum over the peak count. -/
lemma Colour.zip3_single_led_sum (w : ℝ) :
    ∀ (n : ℕ) (A B C : List ℝ), A.length = n → B.length = n →
      C.length = n →
    (((A.zip B).zip C).map (fun q =>
        Colour.sd_single_led_Ohno2005_value q.1.1 q.1.2 w * q.2)).sum =
      ∑ i ∈ Finset.range n, C.getD i 0 *
        Colour.sd_single_led_Ohno2005_value (A.getD i 0) (B.getD i 0) w := by
  intro n
  induction n with
  | zero =>
    intro A B C hA hB hC
    rw [List.length_eq_zero.mp hA]
    simp
  | succ m ih =>
    intro A B C hA hB hC
    cases A with
    | nil => simp at hA
    | cons a As =>
      cases B with
      | nil => simp at hB
      | cons b Bs =>
        cases C with
        | nil => simp at hC
        | cons c Cs =>
          simp only [List.zip_cons_cons, List.map_cons, List.sum_cons]
          rw [ih As Bs Cs (by simpa using hA) (by simpa using hB)
            (by simpa using hC)]
          rw [Finset.sum_range_succ']
          simp only [List.getD_cons_succ, List.getD_cons_zero]
          ring

/-- Entries of an all-ones list are `1`. -/
lemma Colour.replicate_one_getD (n i : ℕ) (hi : i < n) :
    (List.replicate n (1:ℝ)).getD i 0 = 1 := by
  rw [List.getD_eq_getElem _ _ (by simpa using hi)]
  simp

/-- **C9** (multi-LED superposition and broadcasting): for every
non-empty peaks, half-widths and power-ratios arrays (the latter two
cyclically resized to the peak count; power ratios defaulting to all
ones when omitted), the value of `sd_multi_leds_Ohno2005` at every grid
wavelength is the sum over `i` of `power_ratios[i]` times the
single-LED value `(g + 2·g⁵)/3`, `g = exp(-((λ-peak_i)/half_width_i)²)`;
length mismatches are resolved by the cyclic tiling, not an error. -/
theorem sd_multi_leds_superposition (peaks hws : List ℝ)
    (prs : Option (List ℝ)) (ws : List ℝ)
    (hp : peaks ≠ []) (hh : hws ≠ [])
    (hpr : ∀ p, prs = some p → p ≠ []) :
    (∀ p, prs = some p →
      Colour.sd_multi_leds_Ohno2005_values peaks hws prs ws =
        ws.map (fun w => ∑ i ∈ Finset.range peaks.length,
          (Colour.np_resize p peaks.length).getD i 0 *
            Colour.sd_single_led_Ohno2005_value (peaks.getD i 0)
              ((Colour.np_resize hws peaks.length).getD i 0) w)) ∧
    (prs = none →
      Colour.sd_multi_leds_Ohno2005_values peaks hws prs ws =
        ws.map (fun w => ∑ i ∈ Finset.range peaks.length,
          Colour.sd_single_led_Ohno2005_value (peaks.getD i 0)
            ((Colour.np_resize hws peaks.length).getD i 0) w)) := by
  constructor
  · intro p hsome
    subst hsome
    unfold Colour.sd_multi_leds_Ohno2005_values
    apply List.map_congr_left
    intro w _
    rw [Colour.foldl_single_led_sum w _ 0, zero_add]
    exact Colour.zip3_single_led_sum w peaks.length peaks
      (Colour.np_resize hws peaks.length)
      (Colour.np_resize p peaks.length) rfl
      (Colour.np_resize_length hws peaks.length)
      (Colour.np_resize_length p peaks.length)
  · intro hnone
    subst hnone
    unfold Colour.sd_multi_leds_Ohno2005_values
    apply List.map_congr_left
    intro w _
    rw [Colour.foldl_single_led_sum w _ 0, zero_add]
    rw [Colour.zip3_single_led_sum w peaks.length peaks
      (Colour.np_resize hws peaks.length)
      (List.replicate peaks.length 1) rfl
      (Colour.np_resize_length hws peaks.length)
      (List.length_replicate peaks.length 1)]
    refine Finset.sum_congr rfl (fun i hi => ?_)
    rw [Colour.replicate_one_getD peaks.length i (Finset.mem_range.mp hi),
      one_mul]

/-- Witness for C9 at the spec's concrete parameters
(`[457, 530, 615]` nm peaks, `[20, 30, 20]` half-widths,
`[0.731, 1.0, 1.660]` power ratios, wavelength `500`). -/
theorem sd_multi_leds_superposition_witness :
    Colour.sd_multi_leds_Ohno2005_values [457, 530, 615] [20, 30, 20]
      (some [0.731, 1.0, 1.660]) [500] =
    ([500] : List ℝ).map (fun w =>
      ∑ i ∈ Finset.range ([457, 530, 615] : List ℝ).length,
        (Colour.np_resize [0.731, 1.0, 1.660]
          ([457, 530, 615] : List ℝ).length).getD i 0 *
          Colour.sd_single_led_Ohno2005_value
            (([457, 530, 615] : List ℝ).getD i 0)
            ((Colour.np_resize [20, 30, 20]
              ([457, 530, 615] : List ℝ).length).getD i 0) w) := by
  exact (sd_multi_leds_superposition [457, 530, 615] [20, 30, 20]
    (some [0.731, 1.0, 1.660]) [500] (by simp) (by simp)
    (fun p hp => by injection hp with h; rw [← h]; simp)).1
    [0.731, 1.0, 1.660] rfl
